import Mathlib

/-!
Verification development for the FRBSF economic-letter ingestion pipeline.

The Python source is shallowly embedded:

* `app/services/scraper.py` : `ScraperService.parse_letter_list` becomes
  `parse_letter_list`, a fold over the anchors of an abstract HTML document;
  `ScraperService.fetch_letter_content` becomes the `detail` field of `Env`
  (it returns the empty string on any transport or parse failure).
* `app/db/repository.py` : the letters table becomes a `Store` (a list of
  rows); `letter_exists` and `insert_letter` are modelled directly, with the
  SQLite uniqueness violation (`sqlite3.IntegrityError`) represented by the
  `raceUrls` field of `Env` (urls concurrently inserted between the existence
  check and the insert, so that the insert raises).
* `app/main.py` : `fetch_new_letters` and `fetch_more_letters` are modelled
  as `Except`-valued functions; a raised exception that escapes the handler
  body (and is turned into an HTTP 500 by the generic handler) is `.error`.
* `app/models/schemas.py` : the `FetchMoreRequest` validation (the field
  `current_page` carries the constraint `ge=1`) becomes `mkFetchMoreRequest`.

HTML documents are abstracted to the data the parser inspects: the list of
anchor elements having an `href` attribute, each with its href value, its
visible text, a flag recording whether extracting the visible text raises
(the per-link failure point inside the per-link `try` block), and the text
of the first paragraph found in its nearest block-level ancestor, if any.
-/

set_option autoImplicit false

namespace App

/-! ## Abstract HTML and the listing parser (scraper.py) -/

/-- One anchor element with an href attribute, as inspected by
`parse_letter_list`.  `textFails` records whether reading the visible text
of the link raises, which is the modelled per-link failure point inside the
per-link `try` block (it occurs after the seen-set insertion). -/
structure Anchor where
  href : String
  text : String
  textFails : Bool
  para : Option String
deriving DecidableEq

/-- A fetched listing document: either BeautifulSoup fails on the whole
document (the outer `try` of `parse_letter_list`), or it yields a list of
anchors in document order. -/
inductive Html where
  | unparseable
  | doc (links : List Anchor)

/-- Scraped letter data, mirroring the `LetterData` class of scraper.py. -/
structure LetterData where
  title : String
  url : String
  publication_date : String
  summary : Option String
  content : String
deriving DecidableEq

/-- Boolean prefix test on character lists. -/
def leadsWith : List Char → List Char → Bool
  | [], _ => true
  | _ :: _, [] => false
  | a :: as, b :: bs => a == b && leadsWith as bs

/-- Boolean substring occurrence test on character lists, modelling the
Python `in` operator on strings. -/
def hasSub (needle : List Char) : List Char → Bool
  | [] => leadsWith needle []
  | c :: rest => leadsWith needle (c :: rest) || hasSub needle rest

/-- Python `needle in s` for strings. -/
def containsSub (needle s : String) : Bool :=
  hasSub needle.data s.data

/-- Python `s.startswith t`. -/
def startsWithStr (t s : String) : Bool :=
  leadsWith t.data s.data

/-- Python `s.endswith t`. -/
def endsWithStr (t s : String) : Bool :=
  leadsWith t.data.reverse s.data.reverse

/-- Python `s.lower()` (ASCII range, which covers the boilerplate
comparison strings in the source). -/
def lowerStr (s : String) : String :=
  String.mk (s.data.map Char.toLower)

/-- The fixed site origin used to absolutise relative hrefs
(`https://www.frbsf.org` in scraper.py). -/
def siteOrigin : String := "https://www.frbsf.org"

/-- Make the url absolute if relative: `if not url.startswith("http")`. -/
def resolveUrl (href : String) : String :=
  if startsWithStr "http" href then href else siteOrigin ++ href

/-- First filter of the per-link body: skip if the raw href is empty or
does not contain the marker segment `economic-letter`. -/
def hrefOk (href : String) : Bool :=
  !(href == "") && containsSub "economic-letter" href

/-- Second filter: skip pagination links and the bare listing root,
tested on the resolved url. -/
def urlExcluded (url : String) : Bool :=
  containsSub "/page/" url || endsWithStr "/economic-letter/" url ||
    endsWithStr "/economic-letter" url

/-- A link reaches the seen-set insertion exactly when both url filters
pass. -/
def passes (a : Anchor) : Bool :=
  hrefOk a.href && !(urlExcluded (resolveUrl a.href))

/-- The boilerplate title denylist of scraper.py. -/
def boilerplate : List String :=
  ["read the economic letter", "economic letter"]

/-- Title validation: reject empty, shorter than 10 characters, or a
case-insensitive boilerplate phrase. -/
def validTitle (t : String) : Bool :=
  !(t == "") && decide (10 ≤ t.length) && !(boilerplate.contains (lowerStr t))

/-- Try to match the regular expression `/(\d{4})/(\d{2})/` at the head of
the character list; on success return the year and month digit groups.
The pattern is fixed-length, so a match at a position is exactly nine
character tests. -/
def matchDateAt (cs : List Char) : Option (List Char × List Char) :=
  match cs with
  | c0 :: y1 :: y2 :: y3 :: y4 :: c5 :: m1 :: m2 :: c8 :: _ =>
    if c0 == '/' && y1.isDigit && y2.isDigit && y3.isDigit && y4.isDigit &&
        c5 == '/' && m1.isDigit && m2.isDigit && c8 == '/' then
      some ([y1, y2, y3, y4], [m1, m2])
    else
      none
  | _ => none

/-- `re.search` for the fixed-length pattern `/(\d{4})/(\d{2})/`: try each
position from the left and return the first match. -/
def findDateSeg : List Char → Option (List Char × List Char)
  | [] => none
  | c :: rest =>
    match matchDateAt (c :: rest) with
    | some r => some r
    | none => findDateSeg rest

/-- The period string `YYYY-MM-01` built from matched digit groups. -/
def periodString (y m : List Char) : String :=
  String.mk y ++ "-" ++ String.mk m ++ "-01"

/-- Publication date extraction from the url, scraper.py lines 127-133. -/
def extractPeriod (url : String) : String :=
  match findDateSeg url.data with
  | some (y, m) => periodString y m
  | none => ""

/-- Python `summary or title`: the summary string when it is truthy
(present and non-empty), the title otherwise. -/
def contentInit (summary : Option String) (title : String) : String :=
  match summary with
  | some s => if s = "" then title else s
  | none => title

/-- Build the `LetterData` record for one accepted anchor. -/
def mkLetter (a : Anchor) : LetterData :=
  let url := resolveUrl a.href
  { title := a.text
    url := url
    publication_date := extractPeriod url
    summary := a.para
    content := contentInit a.para a.text }

/-- One iteration of the per-link loop of `parse_letter_list`, acting on the
state `(letters, seen_urls)`.  The order of the tests follows the source:
url filters, seen-set membership, seen-set insertion, visible-text
extraction (the modelled per-link failure point), title validation. -/
def parseStep (st : List LetterData × List String) (a : Anchor) :
    List LetterData × List String :=
  if passes a then
    let url := resolveUrl a.href
    if url ∈ st.2 then st
    else
      let seen := url :: st.2
      if a.textFails then (st.1, seen)
      else if validTitle a.text then (st.1 ++ [mkLetter a], seen)
      else (st.1, seen)
  else st

/-- `ScraperService.parse_letter_list`: fold the per-link loop over the
anchors; a document BeautifulSoup cannot parse yields the empty list. -/
def parse_letter_list : Html → List LetterData
  | .unparseable => []
  | .doc links => (links.foldl parseStep ([], [])).1

/-! ## Store and environment (repository.py, external collaborators) -/

/-- One row of the letters table. -/
structure StoredRow where
  title : String
  url : String
  publication_date : String
  summary : Option String
  content : String
deriving DecidableEq

/-- The letters table, in insertion order. -/
abbrev Store := List StoredRow

/-- `DatabaseRepository.letter_exists`. -/
def letter_exists (st : Store) (url : String) : Bool :=
  st.any (fun r => r.url == url)

/-- The external world of one invocation: the listing HTML served for each
page number, the result of `fetch_letter_content` for each url (empty
string on any transport or parse failure), and the urls whose insert
raises `sqlite3.IntegrityError` because a concurrent writer inserted the
same locator between the existence check and the insert. -/
structure Env where
  pages : Nat → Html
  detail : String → String
  raceUrls : List String

/-- `fetch_letters_page`: fetch page N and parse it; transport failures are
caught there and yield an empty list, which coincides with parsing an
unparseable document. -/
def fetch_letters_page (env : Env) (page : Nat) : List LetterData :=
  parse_letter_list (env.pages page)

/-- The per-candidate body shared by both endpoints (main.py): skip a
candidate that already exists; otherwise fetch the full content, keep the
listing fallback when it is empty, and insert.  An insert on a url in
`raceUrls` raises, and nothing in the loop catches it. -/
def ingestCandidate (env : Env) (st : Store) (c : LetterData) :
    Except String (Store × Nat) :=
  if letter_exists st c.url then .ok (st, 0)
  else
    let full := env.detail c.url
    let content := if full = "" then c.content else full
    if c.url ∈ env.raceUrls then .error "IntegrityError"
    else
      .ok (st ++ [{ title := c.title, url := c.url,
                    publication_date := c.publication_date,
                    summary := c.summary, content := content }], 1)

/-- The candidate loop of both endpoints: process candidates in parse
order, threading the store and counting the inserts; the first raised
exception aborts the rest of the loop. -/
def ingestList (env : Env) (st : Store) :
    List LetterData → Except String (Store × Nat)
  | [] => .ok (st, 0)
  | c :: cs =>
    match ingestCandidate env st c with
    | .error e => .error e
    | .ok (st1, n) =>
      match ingestList env st1 cs with
      | .error e => .error e
      | .ok (st2, m) => .ok (st2, n + m)

/-- `fetch_new_letters` (main.py lines 131-167): ingest page 1 and report;
an exception escaping the loop becomes the generic 500 failure. -/
def fetch_new_letters (env : Env) (st : Store) :
    Except String (Store × Nat × String) :=
  match ingestList env st (fetch_letters_page env 1) with
  | .error e => .error e
  | .ok (st1, n) =>
    let msg := if n > 0 then s!"Added {n} new letter(s)"
               else "No new letters found"
    .ok (st1, n, msg)

/-- The message built after the page loop of `fetch_more_letters` ends
without the early return (bound exhausted, or empty page break). -/
def exhaustMessage (total : Nat) : String :=
  if total = 0 then
    "Checked 5 pages but all letters already exist. You may have reached the end of available letters."
  else s!"Added {total} new letter(s)"

/-- The early-return message of `fetch_more_letters` when a page yields at
least one newly persisted letter. -/
def successMessage (total page : Nat) : String :=
  s!"Added {total} new letter(s) from page {page}"

/-- The page loop of `fetch_more_letters` (main.py lines 186-231), with the
remaining attempts counted down and the pages visited in this call
accumulated for the ordering statements.  `nextPage` is
`current_page + attempt + 1` of the source. -/
def fetch_more_loop (env : Env) :
    Nat → Store → Nat → Nat → List Nat →
      Except String (Store × Nat × String × List Nat)
  | 0, st, _, total, visited => .ok (st, total, exhaustMessage total, visited)
  | attemptsLeft + 1, st, nextPage, total, visited =>
    if (fetch_letters_page env nextPage).isEmpty then
      .ok (st, total, exhaustMessage total, visited ++ [nextPage])
    else
      match ingestList env st (fetch_letters_page env nextPage) with
      | .error e => .error e
      | .ok (st1, added) =>
        if added > 0 then
          .ok (st1, total + added, successMessage (total + added) nextPage,
               visited ++ [nextPage])
        else
          fetch_more_loop env attemptsLeft st1 (nextPage + 1) (total + added)
            (visited ++ [nextPage])

/-- `fetch_more_letters` (main.py lines 170-235): up to `max_attempts = 5`
pages starting just after the given current page. -/
def fetch_more_letters (env : Env) (st : Store) (current_page : Nat) :
    Except String (Store × Nat × String × List Nat) :=
  fetch_more_loop env 5 st (current_page + 1) 0 []

/-- The pydantic validation of `FetchMoreRequest` (schemas.py lines 56-58):
`current_page: int = Field(default=1, ge=1)`.  A request body violating the
constraint is rejected before the handler runs. -/
def mkFetchMoreRequest (current_page : Int) : Option Nat :=
  if 1 ≤ current_page then some current_page.toNat else none

/-- The `/api/letters/fetch-more` endpoint as seen by a caller: request
validation first, then the handler. -/
def fetch_more_endpoint (env : Env) (st : Store) (current_page : Int) :
    Except String (Store × Nat × String × List Nat) :=
  match mkFetchMoreRequest current_page with
  | none => .error "validation error: current_page must be at least 1"
  | some p => fetch_more_letters env st p

/-! ## Occurrence predicate for the date pattern -/

/-- The digit groups `y` and `m` occur in `s` as a `/YYYY/MM/` path
segment: four digits, slash, two digits, between slashes. -/
def dateSegOccurs (y m : List Char) (s : String) : Prop :=
  ∃ pre suf, s.data = pre ++ '/' :: (y ++ '/' :: (m ++ '/' :: suf)) ∧
    y.length = 4 ∧ m.length = 2 ∧
    (∀ c ∈ y, c.isDigit = true) ∧ (∀ c ∈ m, c.isDigit = true)

/-! ## Concrete fixtures used by witnesses and counterexamples -/

/-- A letter anchor whose row is pre-stored in the scenarios. -/
def aStored1 : Anchor :=
  { href := "/economic-letter/2024/01/alpha-letter"
    text := "Alpha letter on inflation", textFails := false, para := none }

/-- A second pre-stored letter anchor, with a listing excerpt. -/
def aStored2 : Anchor :=
  { href := "/economic-letter/2024/02/beta-letter"
    text := "Beta letter on employment", textFails := false
    para := some "Beta excerpt text" }

/-- A genuinely new letter anchor. -/
def aNew : Anchor :=
  { href := "/economic-letter/2024/03/gamma-letter"
    text := "Gamma letter on growth", textFails := false, para := none }

/-- Another new letter anchor, placed on the page after the stopping page
to exhibit that it is never fetched. -/
def aNew2 : Anchor :=
  { href := "/economic-letter/2024/04/delta-letter"
    text := "Delta letter on housing", textFails := false, para := none }

/-- A duplicate anchor to the locator of `aNew`, later in document order. -/
def aNewDup : Anchor :=
  { href := "/economic-letter/2024/03/gamma-letter"
    text := "Gamma letter duplicate anchor", textFails := false
    para := none }

/-- An anchor to the locator of `aNew` whose title fails validation. -/
def aShort : Anchor :=
  { href := "/economic-letter/2024/03/gamma-letter"
    text := "short", textFails := false, para := none }

/-- An unrelated valid anchor. -/
def aOther : Anchor :=
  { href := "/economic-letter/2024/05/epsilon-letter"
    text := "Epsilon letter on trade", textFails := false, para := none }

/-- An anchor whose visible-text extraction raises. -/
def aFail : Anchor :=
  { href := "/economic-letter/2024/06/zeta-letter"
    text := "Zeta letter on banking", textFails := true, para := none }

/-- The stored row a fresh ingest of an anchor produces when the detail
fetch yields nothing. -/
def rowOf (a : Anchor) : StoredRow :=
  { title := a.text, url := resolveUrl a.href
    publication_date := extractPeriod (resolveUrl a.href)
    summary := a.para, content := contentInit a.para a.text }

/-- Store holding the two pre-stored letters. -/
def stC2 : Store := [rowOf aStored1, rowOf aStored2]

/-- Mode B scenario shifted to the smallest starting page the request
validation accepts: pages 2 and 3 carry only already-stored candidates,
page 4 carries one new candidate, page 5 carries another new candidate. -/
def envC2 : Env :=
  { pages := fun n =>
      if n = 2 then .doc [aStored1]
      else if n = 3 then .doc [aStored2]
      else if n = 4 then .doc [aNew]
      else if n = 5 then .doc [aNew2]
      else .doc []
    detail := fun _ => ""
    raceUrls := [] }

/-- The exact scenario of the claim on `run_fetch_more(0)`: pages 1 and 2
carry only already-stored candidates, page 3 carries one new candidate. -/
def envC0 : Env :=
  { pages := fun n =>
      if n = 1 then .doc [aStored1]
      else if n = 2 then .doc [aStored2]
      else if n = 3 then .doc [aNew]
      else if n = 4 then .doc [aNew2]
      else .doc []
    detail := fun _ => ""
    raceUrls := [] }

/-- Duplicate-insert race on page 1: the locator of `aNew` is concurrently
inserted between the existence check and the insert. -/
def envC1 : Env :=
  { pages := fun n => if n = 1 then .doc [aNew] else .doc []
    detail := fun _ => ""
    raceUrls := [resolveUrl aNew.href] }

/-- Duplicate-insert race on page 2, hit by Mode B started at page 1. -/
def envC1more : Env :=
  { pages := fun n => if n = 2 then .doc [aNew] else .doc []
    detail := fun _ => ""
    raceUrls := [resolveUrl aNew.href] }

/-- End-of-pagination scenario: page 2 carries only a stored candidate,
page 3 is empty, pages 4 and 5 would carry a new candidate. -/
def envC3 : Env :=
  { pages := fun n =>
      if n = 2 then .doc [aStored1]
      else if n = 3 then .doc []
      else .doc [aNew]
    detail := fun _ => ""
    raceUrls := [] }

/-- A remote site serving empty listings on every page. -/
def envEmpty : Env :=
  { pages := fun _ => .doc []
    detail := fun _ => ""
    raceUrls := [] }

/-- One new letter on page 1, no race, detail fetch failing. -/
def envC4 : Env :=
  { pages := fun n => if n = 1 then .doc [aNew] else .doc []
    detail := fun _ => ""
    raceUrls := [] }

/-! ## Parser lemmas -/

theorem mkLetter_url (a : Anchor) : (mkLetter a).url = resolveUrl a.href := rfl

theorem parseStep_seen_mem (st : List LetterData × List String) (a : Anchor)
    (u : String) :
    u ∈ (parseStep st a).2 ↔
      u ∈ st.2 ∨ (passes a = true ∧ resolveUrl a.href = u) := by
  unfold parseStep
  by_cases hp : passes a = true
  · by_cases hm : resolveUrl a.href ∈ st.2
    · simp only [hp, if_true, hm, if_pos, true_and]
      constructor
      · exact fun h => Or.inl h
      · rintro (h | rfl)
        · exact h
        · exact hm
    · by_cases hf : a.textFails = true <;>
        by_cases hv : validTitle a.text = true <;>
        · simp only [hp, hm, hf, hv, if_true, if_false, if_neg, if_pos,
            Bool.false_eq_true, List.mem_cons, true_and]
          constructor
          · rintro (rfl | h)
            · exact Or.inr rfl
            · exact Or.inl h
          · rintro (h | rfl)
            · exact Or.inr h
            · exact Or.inl rfl
  · have hp0 : passes a = false := by simpa using hp
    simp [hp0]

theorem parseStep_letters_mem (st : List LetterData × List String)
    (a : Anchor) (l : LetterData) :
    l ∈ (parseStep st a).1 ↔
      l ∈ st.1 ∨ (passes a = true ∧ resolveUrl a.href ∉ st.2 ∧
        a.textFails = false ∧ validTitle a.text = true ∧ l = mkLetter a) := by
  unfold parseStep
  by_cases hp : passes a = true
  · by_cases hm : resolveUrl a.href ∈ st.2
    · simp [hp, hm]
    · by_cases hf : a.textFails = true
      · simp [hp, hm, hf]
      · have hf0 : a.textFails = false := by simpa using hf
        by_cases hv : validTitle a.text = true
        · simp [hp, hm, hf0, hv]
        · simp [hp, hm, hf0, hv]
  · have hp0 : passes a = false := by simpa using hp
    simp [hp0]

theorem parseStep_seen_mono (st : List LetterData × List String) (a : Anchor)
    (u : String) (h : u ∈ st.2) : u ∈ (parseStep st a).2 :=
  (parseStep_seen_mem st a u).mpr (Or.inl h)

theorem foldl_seen_mono (links : List Anchor)
    (st : List LetterData × List String) (u : String) (h : u ∈ st.2) :
    u ∈ (links.foldl parseStep st).2 := by
  induction links generalizing st with
  | nil => exact h
  | cons a rest ih => exact ih (parseStep st a) (parseStep_seen_mono st a u h)

theorem foldl_letters_sub (links : List Anchor)
    (st : List LetterData × List String) (l : LetterData)
    (hl : l ∈ (links.foldl parseStep st).1) :
    l ∈ st.1 ∨ ∃ a ∈ links, passes a = true ∧ a.textFails = false ∧
      validTitle a.text = true ∧ l = mkLetter a := by
  induction links generalizing st with
  | nil => exact Or.inl hl
  | cons a rest ih =>
    rcases ih (parseStep st a) hl with h | ⟨b, hb, props⟩
    · rcases (parseStep_letters_mem st a l).mp h with h0 | ⟨h1, _, h2, h3, h4⟩
      · exact Or.inl h0
      · exact Or.inr ⟨a, List.mem_cons_self a rest, h1, h2, h3, h4⟩
    · exact Or.inr ⟨b, List.mem_cons_of_mem a hb, props⟩

theorem parseStep_fst_cases (st : List LetterData × List String) (a : Anchor) :
    (parseStep st a).1 = st.1 ∨
      ((parseStep st a).1 = st.1 ++ [mkLetter a] ∧ passes a = true ∧
        resolveUrl a.href ∉ st.2) := by
  unfold parseStep
  by_cases hp : passes a = true
  · by_cases hm : resolveUrl a.href ∈ st.2
    · simp [hp, hm]
    · by_cases hf : a.textFails = true
      · simp [hp, hm, hf]
      · by_cases hv : validTitle a.text = true
        · simp [hp, hm, hf, hv]
        · simp [hp, hm, hf, hv]
  · have hp0 : passes a = false := by simpa using hp
    simp [hp0]

theorem parseStep_inv (st : List LetterData × List String) (a : Anchor)
    (h1 : ∀ l ∈ st.1, l.url ∈ st.2)
    (h2 : (st.1.map LetterData.url).Nodup) :
    (∀ l ∈ (parseStep st a).1, l.url ∈ (parseStep st a).2) ∧
      ((parseStep st a).1.map LetterData.url).Nodup := by
  constructor
  · intro l hl
    rcases (parseStep_letters_mem st a l).mp hl with h | ⟨hp, _, _, _, rfl⟩
    · exact parseStep_seen_mono st a _ (h1 l h)
    · exact (parseStep_seen_mem st a _).mpr (Or.inr ⟨hp, (mkLetter_url a).symm⟩)
  · rcases parseStep_fst_cases st a with h | ⟨h, _, hm⟩
    · rw [h]; exact h2
    · rw [h, List.map_append, List.nodup_append]
      refine ⟨h2, by simp, ?_⟩
      intro u hu hu1
      simp only [List.map_cons, List.map_nil, List.mem_singleton] at hu1
      subst hu1
      rcases List.mem_map.mp hu with ⟨l, hlmem, hlurl⟩
      apply hm
      rw [← mkLetter_url a, ← hlurl]
      exact h1 l hlmem

theorem foldl_inv (links : List Anchor) (st : List LetterData × List String)
    (h1 : ∀ l ∈ st.1, l.url ∈ st.2)
    (h2 : (st.1.map LetterData.url).Nodup) :
    ((links.foldl parseStep st).1.map LetterData.url).Nodup := by
  induction links generalizing st with
  | nil => exact h2
  | cons a rest ih =>
    obtain ⟨g1, g2⟩ := parseStep_inv st a h1 h2
    exact ih (parseStep st a) g1 g2

theorem parse_urls_nodup (html : Html) :
    ((parse_letter_list html).map LetterData.url).Nodup := by
  cases html with
  | unparseable => simp [parse_letter_list]
  | doc links => exact foldl_inv links ([], []) (by simp) (by simp)

theorem foldl_no_new_of_seen (links : List Anchor)
    (st : List LetterData × List String) (u : String)
    (hu : u ∈ st.2) (hold : ∀ l ∈ st.1, l.url ≠ u) :
    ∀ l ∈ (links.foldl parseStep st).1, l.url ≠ u := by
  induction links generalizing st with
  | nil => exact hold
  | cons a rest ih =>
    apply ih (parseStep st a) (parseStep_seen_mono st a u hu)
    intro l hl
    rcases (parseStep_letters_mem st a l).mp hl with h | ⟨_, hm, _, _, rfl⟩
    · exact hold l h
    · rw [mkLetter_url]
      intro heq
      exact hm (heq ▸ hu)

theorem foldl_first_occ (links : List Anchor)
    (st : List LetterData × List String) (l : LetterData)
    (hl : l ∈ (links.foldl parseStep st).1) :
    l ∈ st.1 ∨ ∃ pre a post, links = pre ++ a :: post ∧ passes a = true ∧
      a.textFails = false ∧ validTitle a.text = true ∧ l = mkLetter a ∧
      resolveUrl a.href ∉ st.2 ∧
      ∀ b ∈ pre, ¬(passes b = true ∧
        resolveUrl b.href = resolveUrl a.href) := by
  induction links generalizing st with
  | nil => exact Or.inl hl
  | cons c rest ih =>
    rcases ih (parseStep st c) hl with
      h | ⟨pre, a, post, hsplit, hp, hf, hv, hla, hnotseen, hfirst⟩
    · rcases (parseStep_letters_mem st c l).mp h with
        h0 | ⟨hp, hm, hf, hv, hlc⟩
      · exact Or.inl h0
      · exact Or.inr ⟨[], c, rest, rfl, hp, hf, hv, hlc, hm, by simp⟩
    · refine Or.inr ⟨c :: pre, a, post, by rw [hsplit]; rfl, hp, hf, hv, hla,
        ?_, ?_⟩
      · intro hmem
        exact hnotseen (parseStep_seen_mono st c _ hmem)
      · intro b hb
        rcases List.mem_cons.mp hb with rfl | hbpre
        · rintro ⟨hpb, hub⟩
          exact hnotseen ((parseStep_seen_mem st b _).mpr (Or.inr ⟨hpb, hub⟩))
        · exact hfirst b hbpre

/-! ## Date-pattern lemmas -/

theorem len_eq_four {α : Type} (xs : List α) (h : xs.length = 4) :
    ∃ a b c d, xs = [a, b, c, d] := by
  rcases xs with _ | ⟨a, _ | ⟨b, _ | ⟨c, _ | ⟨d, _ | ⟨e, tl⟩⟩⟩⟩⟩ <;>
    simp_all

theorem len_eq_two {α : Type} (xs : List α) (h : xs.length = 2) :
    ∃ a b, xs = [a, b] := by
  rcases xs with _ | ⟨a, _ | ⟨b, _ | ⟨c, tl⟩⟩⟩ <;> simp_all

theorem matchDateAt_some (cs : List Char) (y m : List Char)
    (h : matchDateAt cs = some (y, m)) :
    ∃ suf, cs = '/' :: (y ++ '/' :: (m ++ '/' :: suf)) ∧
      y.length = 4 ∧ m.length = 2 ∧
      (∀ c ∈ y, c.isDigit = true) ∧ (∀ c ∈ m, c.isDigit = true) := by
  unfold matchDateAt at h
  split at h
  · rename_i c0 y1 y2 y3 y4 c5 m1 m2 c8 rest
    split at h
    · rename_i hcond
      simp only [Bool.and_eq_true, beq_iff_eq] at hcond
      obtain ⟨⟨⟨⟨⟨⟨⟨⟨h0, hd1⟩, hd2⟩, hd3⟩, hd4⟩, h5⟩, hd5⟩, hd6⟩, h8⟩ := hcond
      injection h with h
      injection h with hy hm
      subst hy; subst hm; subst h0; subst h5; subst h8
      refine ⟨rest, rfl, rfl, rfl, ?_, ?_⟩
      · intro c hc
        simp only [List.mem_cons, List.not_mem_nil, or_false] at hc
        rcases hc with rfl | rfl | rfl | rfl <;> assumption
      · intro c hc
        simp only [List.mem_cons, List.not_mem_nil, or_false] at hc
        rcases hc with rfl | rfl <;> assumption
    · exact absurd h (by simp)
  · exact absurd h (by simp)

theorem matchDateAt_of_shape (y m suf : List Char)
    (hy : y.length = 4) (hm2 : m.length = 2)
    (hyd : ∀ c ∈ y, c.isDigit = true) (hmd : ∀ c ∈ m, c.isDigit = true) :
    matchDateAt ('/' :: (y ++ '/' :: (m ++ '/' :: suf))) = some (y, m) := by
  obtain ⟨a, b, c, d, rfl⟩ := len_eq_four y hy
  obtain ⟨e, f, rfl⟩ := len_eq_two m hm2
  have ha : a.isDigit = true := hyd a (by simp)
  have hb : b.isDigit = true := hyd b (by simp)
  have hc : c.isDigit = true := hyd c (by simp)
  have hd : d.isDigit = true := hyd d (by simp)
  have he : e.isDigit = true := hmd e (by simp)
  have hf : f.isDigit = true := hmd f (by simp)
  simp [matchDateAt, ha, hb, hc, hd, he, hf]

theorem findDateSeg_some (cs : List Char) (y m : List Char)
    (h : findDateSeg cs = some (y, m)) :
    (∃ pre suf, cs = pre ++ '/' :: (y ++ '/' :: (m ++ '/' :: suf))) ∧
      y.length = 4 ∧ m.length = 2 ∧
      (∀ c ∈ y, c.isDigit = true) ∧ (∀ c ∈ m, c.isDigit = true) := by
  induction cs with
  | nil => simp [findDateSeg] at h
  | cons c rest ih =>
    rw [findDateSeg] at h
    cases hmt : matchDateAt (c :: rest) with
    | some r =>
      rw [hmt] at h
      injection h with h
      subst h
      obtain ⟨suf, hshape, hy, hm2, hyd, hmd⟩ := matchDateAt_some _ y m hmt
      exact ⟨⟨[], suf, by simpa using hshape⟩, hy, hm2, hyd, hmd⟩
    | none =>
      rw [hmt] at h
      obtain ⟨⟨pre, suf, hshape⟩, hy, hm2, hyd, hmd⟩ := ih h
      exact ⟨⟨c :: pre, suf, by rw [List.cons_append, hshape]⟩,
        hy, hm2, hyd, hmd⟩

theorem findDateSeg_none (cs : List Char) (h : findDateSeg cs = none)
    (y m : List Char) (hy : y.length = 4) (hm2 : m.length = 2)
    (hyd : ∀ c ∈ y, c.isDigit = true) (hmd : ∀ c ∈ m, c.isDigit = true) :
    ∀ pre suf, cs ≠ pre ++ '/' :: (y ++ '/' :: (m ++ '/' :: suf)) := by
  induction cs with
  | nil =>
    intro pre suf hcs
    cases pre <;> simp at hcs
  | cons c rest ih =>
    rw [findDateSeg] at h
    cases hmt : matchDateAt (c :: rest) with
    | some r =>
      rw [hmt] at h
      simp at h
    | none =>
      rw [hmt] at h
      intro pre suf hcs
      cases pre with
      | nil =>
        simp only [List.nil_append] at hcs
        rw [hcs] at hmt
        rw [matchDateAt_of_shape y m suf hy hm2 hyd hmd] at hmt
        simp at hmt
      | cons p pre1 =>
        rw [List.cons_append] at hcs
        injection hcs with h1 h2
        exact ih h pre1 suf h2

theorem extractPeriod_of_occurs (s : String)
    (hocc : ∃ y m, dateSegOccurs y m s) :
    ∃ y m, dateSegOccurs y m s ∧ extractPeriod s = periodString y m := by
  cases hfd : findDateSeg s.data with
  | some r =>
    obtain ⟨y, m⟩ := r
    obtain ⟨⟨pre, suf, hshape⟩, hy, hm2, hyd, hmd⟩ :=
      findDateSeg_some s.data y m hfd
    refine ⟨y, m, ⟨pre, suf, hshape, hy, hm2, hyd, hmd⟩, ?_⟩
    unfold extractPeriod
    rw [hfd]
  | none =>
    obtain ⟨y, m, pre, suf, hshape, hy, hm2, hyd, hmd⟩ := hocc
    exact absurd hshape (findDateSeg_none s.data hfd y m hy hm2 hyd hmd pre suf)

theorem extractPeriod_of_not_occurs (s : String)
    (hnocc : ¬ ∃ y m, dateSegOccurs y m s) : extractPeriod s = "" := by
  cases hfd : findDateSeg s.data with
  | some r =>
    obtain ⟨y, m⟩ := r
    obtain ⟨⟨pre, suf, hshape⟩, hy, hm2, hyd, hmd⟩ :=
      findDateSeg_some s.data y m hfd
    exact absurd ⟨y, m, pre, suf, hshape, hy, hm2, hyd, hmd⟩ hnocc
  | none =>
    unfold extractPeriod
    rw [hfd]

theorem mem_parse (html : Html) (l : LetterData)
    (hl : l ∈ parse_letter_list html) :
    ∃ a, passes a = true ∧ a.textFails = false ∧ validTitle a.text = true ∧
      l = mkLetter a := by
  cases html with
  | unparseable => simp [parse_letter_list] at hl
  | doc links =>
    rcases foldl_letters_sub links ([], []) l hl with
      h | ⟨a, _, hp, hf, hv, hla⟩
    · simp at h
    · exact ⟨a, hp, hf, hv, hla⟩

/-! ## Orchestrator lemmas -/

theorem ingestCandidate_of_exists (env : Env) (st : Store) (c : LetterData)
    (h : letter_exists st c.url = true) :
    ingestCandidate env st c = .ok (st, 0) := by
  unfold ingestCandidate
  simp [h]

theorem letter_exists_append (st rows : Store) (u : String) :
    letter_exists (st ++ rows) u =
      (letter_exists st u || letter_exists rows u) := by
  unfold letter_exists
  exact List.any_append

theorem ingestCandidate_ok_inv (env : Env) (st : Store) (c : LetterData)
    (stA : Store) (k : Nat)
    (h : ingestCandidate env st c = .ok (stA, k)) :
    (letter_exists st c.url = true ∧ stA = st ∧ k = 0) ∨
      (letter_exists st c.url = false ∧ c.url ∉ env.raceUrls ∧
        stA = st ++ [{ title := c.title, url := c.url,
                       publication_date := c.publication_date,
                       summary := c.summary,
                       content := if env.detail c.url = "" then c.content
                                  else env.detail c.url }] ∧ k = 1) := by
  unfold ingestCandidate at h
  by_cases hex : letter_exists st c.url = true
  · rw [if_pos hex] at h
    simp only [Except.ok.injEq, Prod.mk.injEq] at h
    exact Or.inl ⟨hex, h.1.symm, h.2.symm⟩
  · have hex0 : letter_exists st c.url = false := by simpa using hex
    rw [if_neg (by simp [hex0])] at h
    by_cases hr : c.url ∈ env.raceUrls
    · rw [if_pos hr] at h
      simp at h
    · rw [if_neg hr] at h
      simp only [Except.ok.injEq, Prod.mk.injEq] at h
      exact Or.inr ⟨hex0, hr, h.1.symm, h.2.symm⟩

theorem ingestList_cons_inv (env : Env) (st : Store) (c : LetterData)
    (cs : List LetterData) (st1 : Store) (n : Nat)
    (h : ingestList env st (c :: cs) = .ok (st1, n)) :
    ∃ stA k kB, ingestCandidate env st c = .ok (stA, k) ∧
      ingestList env stA cs = .ok (st1, kB) ∧ n = k + kB := by
  unfold ingestList at h
  split at h
  · simp at h
  · rename_i stA k heq
    split at h
    · simp at h
    · rename_i stB kB heq2
      simp only [Except.ok.injEq, Prod.mk.injEq] at h
      exact ⟨stA, k, kB, heq, h.1 ▸ heq2, h.2.symm⟩

theorem ingestList_mono (env : Env) (cs : List LetterData) :
    ∀ (st st1 : Store) (n : Nat), ingestList env st cs = .ok (st1, n) →
      ∀ u, letter_exists st u = true → letter_exists st1 u = true := by
  induction cs with
  | nil =>
    intro st st1 n h u hu
    unfold ingestList at h
    simp only [Except.ok.injEq, Prod.mk.injEq] at h
    rw [← h.1]
    exact hu
  | cons c cs ih =>
    intro st st1 n h u hu
    obtain ⟨stA, k, kB, hc, hrest, -⟩ := ingestList_cons_inv env st c cs st1 n h
    apply ih stA st1 kB hrest u
    rcases ingestCandidate_ok_inv env st c stA k hc with
      ⟨-, rfl, -⟩ | ⟨-, -, rfl, -⟩
    · exact hu
    · rw [letter_exists_append, hu]
      simp

theorem ingestList_covers (env : Env) (cs : List LetterData) :
    ∀ (st st1 : Store) (n : Nat), ingestList env st cs = .ok (st1, n) →
      ∀ c ∈ cs, letter_exists st1 c.url = true := by
  induction cs with
  | nil =>
    intro st st1 n h c hc
    simp at hc
  | cons c cs ih =>
    intro st st1 n h d hd
    obtain ⟨stA, k, kB, hc, hrest, -⟩ := ingestList_cons_inv env st c cs st1 n h
    rcases List.mem_cons.mp hd with rfl | hdcs
    · apply ingestList_mono env cs stA st1 kB hrest
      rcases ingestCandidate_ok_inv env st d stA k hc with
        ⟨hex, rfl, -⟩ | ⟨-, -, rfl, -⟩
      · exact hex
      · rw [letter_exists_append]
        simp [letter_exists]
    · exact ih stA st1 kB hrest d hdcs

theorem ingestList_all_exist (env : Env) (cs : List LetterData) :
    ∀ st : Store, (∀ c ∈ cs, letter_exists st c.url = true) →
      ingestList env st cs = .ok (st, 0) := by
  induction cs with
  | nil => intro st _; rfl
  | cons c cs ih =>
    intro st h
    simp only [ingestList,
      ingestCandidate_of_exists env st c (h c (List.mem_cons_self c cs)),
      ih st (fun d hd => h d (List.mem_cons_of_mem c hd))]

theorem ingestCandidate_total (env : Env) (hrace : env.raceUrls = [])
    (st : Store) (c : LetterData) :
    ∃ stA k, ingestCandidate env st c = .ok (stA, k) := by
  unfold ingestCandidate
  by_cases hex : letter_exists st c.url = true
  · rw [if_pos hex]
    exact ⟨st, 0, rfl⟩
  · rw [if_neg hex]
    simp only [hrace, List.not_mem_nil, if_false, ite_false]
    exact ⟨_, _, rfl⟩

theorem ingestList_total (env : Env) (hrace : env.raceUrls = [])
    (cs : List LetterData) :
    ∀ st : Store, ∃ st1 n, ingestList env st cs = .ok (st1, n) := by
  induction cs with
  | nil => intro st; exact ⟨st, 0, rfl⟩
  | cons c cs ih =>
    intro st
    obtain ⟨stA, k, hc⟩ := ingestCandidate_total env hrace st c
    obtain ⟨st1, n2, hrest⟩ := ih stA
    exact ⟨st1, k + n2, by simp only [ingestList, hc, hrest]⟩

theorem fetch_new_inv (env : Env) (st st1 : Store) (n : Nat) (msg : String)
    (h : fetch_new_letters env st = .ok (st1, n, msg)) :
    ingestList env st (fetch_letters_page env 1) = .ok (st1, n) := by
  unfold fetch_new_letters at h
  split at h
  · simp at h
  · rename_i stA k heq
    simp only [Except.ok.injEq, Prod.mk.injEq] at h
    rw [← h.1, ← h.2.1]
    exact heq

theorem parseStep_fails_fst (st : List LetterData × List String) (a : Anchor)
    (hf : a.textFails = true) : (parseStep st a).1 = st.1 := by
  unfold parseStep
  by_cases hp : passes a = true
  · by_cases hm : resolveUrl a.href ∈ st.2
    · simp [hp, hm]
    · simp [hp, hm, hf]
  · have hp0 : passes a = false := by simpa using hp
    simp [hp0]

theorem fetch_more_loop_shape (env : Env) (hrace : env.raceUrls = []) :
    ∀ (aL : Nat) (st : Store) (p total : Nat) (vis : List Nat),
      ∃ st1 n msg k, fetch_more_loop env aL st p total vis =
        .ok (st1, n, msg, vis ++ List.range' p k) ∧ k ≤ aL := by
  intro aL
  induction aL with
  | zero =>
    intro st p total vis
    exact ⟨st, total, exhaustMessage total, 0,
      by simp [fetch_more_loop], Nat.le_refl 0⟩
  | succ aL ih =>
    intro st p total vis
    by_cases hemp : (fetch_letters_page env p).isEmpty = true
    · refine ⟨st, total, exhaustMessage total, 1, ?_, by omega⟩
      unfold fetch_more_loop
      rw [if_pos hemp]
      simp [List.range']
    · obtain ⟨stA, added, hing⟩ :=
        ingestList_total env hrace (fetch_letters_page env p) st
      by_cases hadd : added > 0
      · refine ⟨stA, total + added, successMessage (total + added) p, 1,
          ?_, by omega⟩
        simp only [fetch_more_loop, if_neg hemp, hing, if_pos hadd]
        simp [List.range']
      · obtain ⟨st1, n, msg, k, hk, hkle⟩ := ih stA (p + 1) (total + added)
          (vis ++ [p])
        refine ⟨st1, n, msg, k + 1, ?_, by omega⟩
        simp only [fetch_more_loop, if_neg hemp, hing, if_neg hadd, hk]
        rw [List.range'_succ p k 1]
        simp [List.append_assoc]

theorem fetch_more_loop_zero_total (env : Env) :
    ∀ (aL : Nat) (st : Store) (p : Nat) (vis : List Nat) (st1 : Store)
      (n : Nat) (msg : String) (vis1 : List Nat),
      fetch_more_loop env aL st p 0 vis = .ok (st1, n, msg, vis1) →
      (n = 0 ∧ msg = exhaustMessage 0) ∨
        (0 < n ∧ ∃ q, msg = successMessage n q) := by
  intro aL
  induction aL with
  | zero =>
    intro st p vis st1 n msg vis1 h
    unfold fetch_more_loop at h
    simp only [Except.ok.injEq, Prod.mk.injEq] at h
    exact Or.inl ⟨h.2.1.symm, h.2.2.1.symm⟩
  | succ aL ih =>
    intro st p vis st1 n msg vis1 h
    unfold fetch_more_loop at h
    split at h
    · simp only [Except.ok.injEq, Prod.mk.injEq] at h
      exact Or.inl ⟨h.2.1.symm, h.2.2.1.symm⟩
    · split at h
      · simp at h
      · rename_i stA added heq
        split at h
        · rename_i hadd
          simp only [Except.ok.injEq, Prod.mk.injEq] at h
          refine Or.inr ⟨?_, p, ?_⟩
          · omega
          · rw [← h.2.2.1, ← h.2.1]
        · rename_i hadd
          have hadd0 : added = 0 := by omega
          subst hadd0
          exact ih stA (p + 1) (vis ++ [p]) st1 n msg vis1 h

/-! ## Claim theorems and witnesses -/

/-- C1: the code does NOT treat a uniqueness violation raised by insert as
a benign duplicate.  The claim asserts that the invocation does not fail
and the candidate is merely not counted; on the code the raised
IntegrityError escapes the candidate loop of both endpoints uncaught and
the generic handler turns it into an aborting 500 failure.  This theorem
evaluates both endpoints at the failing input: one fresh candidate whose
locator is in the concurrently inserted set. -/
theorem c1_integrity_error_aborts_invocation :
    fetch_new_letters envC1 [] = .error "IntegrityError" ∧
    fetch_more_letters envC1more [] 1 = .error "IntegrityError" :=
  ⟨rfl, rfl⟩

/-- C2 counterexample: the claim instance `run_fetch_more(0)` is impossible
on the code.  The request validation of `FetchMoreRequest` requires
`current_page ≥ 1`, so a starting page of 0 is rejected with a validation
error even in the exact scenario the claim describes (pages 1 and 2
already stored, page 3 new): the call visits no page and does not return a
count of 1. -/
theorem c2_page0_rejected_by_validation :
    fetch_more_endpoint envC0 stC2 0 =
      .error "validation error: current_page must be at least 1" ∧
    mkFetchMoreRequest 0 = none :=
  ⟨rfl, rfl⟩

/-- C2 (amended): Mode B visits pages in strictly increasing consecutive
order starting right after the given page and attempts at most 5 pages per
invocation; with the smallest starting page the request validation accepts
(1), where pages 2 and 3 contain only already-stored candidates and page 4
contains one new candidate, exactly pages 2, 3 and 4 are visited, the call
stops on page 4 with new_count 1, and page 5 (which holds a further new
candidate) is never fetched. -/
theorem c2_fetch_more_increasing_bounded_stops_on_success
    (env : Env) (st : Store) (p : Nat) (hrace : env.raceUrls = []) :
    (∃ st1 n msg k, fetch_more_letters env st p =
        .ok (st1, n, msg, List.range' (p + 1) k) ∧ k ≤ 5) ∧
    fetch_more_letters envC2 stC2 1 =
      .ok (stC2 ++ [rowOf aNew], 1, successMessage 1 4, [2, 3, 4]) ∧
    fetch_more_endpoint envC2 stC2 1 =
      .ok (stC2 ++ [rowOf aNew], 1, successMessage 1 4, [2, 3, 4]) := by
  refine ⟨?_, rfl, rfl⟩
  obtain ⟨st1, n, msg, k, hk, hkle⟩ :=
    fetch_more_loop_shape env hrace 5 st (p + 1) 0 []
  exact ⟨st1, n, msg, k, by simpa using hk, hkle⟩

/-- C2 witness: the amended theorem applied at the concrete scenario. -/
theorem c2_witness :
    fetch_more_letters envC2 stC2 1 =
      .ok (stC2 ++ [rowOf aNew], 1, successMessage 1 4, [2, 3, 4]) :=
  (c2_fetch_more_increasing_bounded_stops_on_success envC2 stC2 1 rfl).2.1

/-- C3: in Mode B a page yielding zero candidates stops the page loop at
once: the loop returns the total accumulated so far with the post-loop
message, visiting no further page.  The second conjunct instantiates a
whole invocation: page 2 has only a stored candidate and page 3 is empty,
so the call returns zero having visited exactly pages 2 and 3. -/
theorem c3_empty_page_ends_pagination (env : Env) (st : Store)
    (p total aL : Nat) (vis : List Nat)
    (hempty : fetch_letters_page env p = []) :
    fetch_more_loop env (aL + 1) st p total vis =
      .ok (st, total, exhaustMessage total, vis ++ [p]) ∧
    fetch_more_letters envC3 stC2 1 =
      .ok (stC2, 0, exhaustMessage 0, [2, 3]) := by
  constructor
  · unfold fetch_more_loop
    rw [hempty]
    rfl
  · rfl

/-- C3 witness: the theorem applied at a concrete empty page 3. -/
theorem c3_witness :
    fetch_more_loop envC3 4 stC2 3 0 [2] =
      .ok (stC2, 0, exhaustMessage 0, [2, 3]) :=
  (c3_empty_page_ends_pagination envC3 stC2 3 0 3 [2] rfl).1

/-- C4: run_fetch_new is idempotent against an unchanged remote listing:
if one call completes, a second call with the same remote pages persists
nothing, leaves the store unchanged and returns new_count 0. -/
theorem c4_fetch_new_idempotent (env : Env) (st st1 : Store) (n : Nat)
    (msg : String) (h1 : fetch_new_letters env st = .ok (st1, n, msg)) :
    fetch_new_letters env st1 = .ok (st1, 0, "No new letters found") := by
  have hi := fetch_new_inv env st st1 n msg h1
  have hcov := ingestList_covers env (fetch_letters_page env 1) st st1 n hi
  have h2 : ingestList env st1 (fetch_letters_page env 1) = .ok (st1, 0) :=
    ingestList_all_exist env (fetch_letters_page env 1) st1 hcov
  simp only [fetch_new_letters, h2]
  rfl

/-- C4 witness: a first call that stores one letter, then the theorem. -/
theorem c4_witness :
    fetch_new_letters envC4 [rowOf aNew] =
      .ok ([rowOf aNew], 0, "No new letters found") :=
  c4_fetch_new_idempotent envC4 [] [rowOf aNew] 1 "Added 1 new letter(s)" rfl

/-- C5: within one parse of a listing document, the locators of the
returned candidates are pairwise distinct, and every returned candidate is
built from the first anchor in document order that passes the url filters
and resolves to its locator. -/
theorem c5_parse_locators_unique_first_wins (html : Html)
    (links : List Anchor) (l : LetterData) (hdoc : html = .doc links)
    (hl : l ∈ parse_letter_list html) :
    ((parse_letter_list html).map LetterData.url).Nodup ∧
      ∃ pre a post, links = pre ++ a :: post ∧ l = mkLetter a ∧
        passes a = true ∧
        ∀ b ∈ pre, ¬(passes b = true ∧ resolveUrl b.href = l.url) := by
  subst hdoc
  refine ⟨parse_urls_nodup _, ?_⟩
  rcases foldl_first_occ links ([], []) l hl with
    h | ⟨pre, a, post, hsplit, hp, hf, hv, hla, -, hfirst⟩
  · simp at h
  · subst hla
    refine ⟨pre, a, post, hsplit, rfl, hp, ?_⟩
    rw [mkLetter_url]
    exact hfirst

/-- C5 witness: a page carrying two anchors to the same locator parses to
candidates with pairwise-distinct locators. -/
theorem c5_witness :
    ((parse_letter_list (.doc [aNew, aNewDup])).map LetterData.url).Nodup :=
  (c5_parse_locators_unique_first_wins (.doc [aNew, aNewDup])
    [aNew, aNewDup] (mkLetter aNew) rfl (by decide)).1

/-- C6: totality and isolation of the parser: an unparseable document
yields the empty sequence; a link whose processing raises contributes no
candidate while the state it leaves still drives the remaining links,
which are processed normally; and every returned candidate comes from a
link whose processing did not raise. -/
theorem c6_per_link_failure_isolated (pre post : List Anchor) (bad : Anchor)
    (hbad : bad.textFails = true) :
    parse_letter_list .unparseable = [] ∧
    (parseStep (pre.foldl parseStep ([], [])) bad).1 =
      (pre.foldl parseStep ([], [])).1 ∧
    parse_letter_list (.doc (pre ++ bad :: post)) =
      (post.foldl parseStep (parseStep (pre.foldl parseStep ([], [])) bad)).1 ∧
    ∀ l ∈ parse_letter_list (.doc (pre ++ bad :: post)),
      ∃ a, (a ∈ pre ∨ a ∈ post) ∧ a.textFails = false ∧ l = mkLetter a := by
  refine ⟨rfl, parseStep_fails_fst _ bad hbad, ?_, ?_⟩
  · simp only [parse_letter_list]
    rw [List.foldl_append]
    rfl
  · intro l hl
    rcases foldl_letters_sub (pre ++ bad :: post) ([], []) l hl with
      h | ⟨a, ha, hp, hf, hv, hla⟩
    · simp at h
    · refine ⟨a, ?_, hf, hla⟩
      rcases List.mem_append.mp ha with h1 | h2
      · exact Or.inl h1
      · rcases List.mem_cons.mp h2 with rfl | h3
        · rw [hf] at hbad
          simp at hbad
        · exact Or.inr h3

/-- C6 witness: the theorem applied at a concrete failing link. -/
theorem c6_witness :
    (parseStep ([aStored1].foldl parseStep ([], [])) aFail).1 =
      ([aStored1].foldl parseStep ([], [])).1 :=
  (c6_per_link_failure_isolated [aStored1] [aOther] aFail rfl).2.1

/-- C7: when the detail fetch for a new candidate fails at transport level
or yields empty text, the candidate is still inserted (counted once), and
its stored body is its listing excerpt when a non-empty one was found,
otherwise its title. -/
theorem c7_detail_failure_candidate_still_persisted (env : Env) (st : Store)
    (html : Html) (c : LetterData) (hc : c ∈ parse_letter_list html)
    (hnew : letter_exists st c.url = false) (hfail : env.detail c.url = "")
    (hrace : c.url ∉ env.raceUrls) :
    ingestCandidate env st c =
      .ok (st ++ [{ title := c.title, url := c.url,
                    publication_date := c.publication_date,
                    summary := c.summary,
                    content := contentInit c.summary c.title }], 1) := by
  obtain ⟨a, -, -, -, rfl⟩ := mem_parse html c hc
  unfold ingestCandidate
  rw [if_neg (by simp [hnew])]
  simp [hfail, hrace]
  rfl

/-- C7 witness: the theorem applied at a candidate with an excerpt. -/
theorem c7_witness :
    ingestCandidate envC4 [] (mkLetter aStored2) =
      .ok ([{ title := (mkLetter aStored2).title,
              url := (mkLetter aStored2).url,
              publication_date := (mkLetter aStored2).publication_date,
              summary := (mkLetter aStored2).summary,
              content := contentInit (mkLetter aStored2).summary
                (mkLetter aStored2).title }], 1) :=
  c7_detail_failure_candidate_still_persisted envC4 [] (.doc [aStored2])
    (mkLetter aStored2) (by decide) rfl rfl (by simp [envC4])

/-- C8: for every candidate the parser returns, the period field is the
value of the locator-only extraction function; when the locator contains a
`/YYYY/MM/` segment the period is `YYYY-MM-01` built from a matched
segment, and otherwise it is the empty string. -/
theorem c8_period_determined_by_locator (html : Html) (l : LetterData)
    (hl : l ∈ parse_letter_list html) :
    l.publication_date = extractPeriod l.url ∧
    ((∃ y m, dateSegOccurs y m l.url) →
      ∃ y m, dateSegOccurs y m l.url ∧
        l.publication_date = periodString y m) ∧
    ((¬ ∃ y m, dateSegOccurs y m l.url) → l.publication_date = "") := by
  obtain ⟨a, -, -, -, rfl⟩ := mem_parse html l hl
  refine ⟨rfl, ?_, ?_⟩
  · intro hocc
    exact extractPeriod_of_occurs _ hocc
  · intro hnocc
    exact extractPeriod_of_not_occurs _ hnocc

/-- C8 witness: the theorem applied at a locator containing `/2024/03/`,
whose derived period evaluates to `2024-03-01`. -/
theorem c8_witness :
    (mkLetter aNew).publication_date = extractPeriod (mkLetter aNew).url ∧
    extractPeriod (mkLetter aNew).url = "2024-03-01" :=
  ⟨(c8_period_determined_by_locator (.doc [aNew]) (mkLetter aNew)
      (by decide)).1, rfl⟩

/-- C9: whenever the Mode B page loop ends without the early
stop-on-first-success return, the accumulated total is 0, so every
invocation outcome is either new_count 0 with the zero-total exhaust
message or a positive count with the per-page success message; the
post-loop branch reporting a non-zero added message is unreachable. -/
theorem c9_nonzero_exhaust_unreachable (env : Env) (st : Store) (p : Nat)
    (st1 : Store) (n : Nat) (msg : String) (vis : List Nat)
    (h : fetch_more_letters env st p = .ok (st1, n, msg, vis)) :
    (n = 0 ∧ msg = "Checked 5 pages but all letters already exist. You may have reached the end of available letters.") ∨
      (0 < n ∧ ∃ q, msg = successMessage n q) := by
  have hz := fetch_more_loop_zero_total env 5 st (p + 1) [] st1 n msg vis h
  simpa [exhaustMessage] using hz

/-- C9 witness: the theorem applied at an all-empty remote site. -/
theorem c9_witness :
    (0 : Nat) = 0 ∧ exhaustMessage 0 =
      "Checked 5 pages but all letters already exist. You may have reached the end of available letters." := by
  rcases c9_nonzero_exhaust_unreachable envEmpty [] 1 [] 0 (exhaustMessage 0)
      [2] rfl with h | h
  · exact ⟨rfl, h.2⟩
  · exact absurd h.1 (by simp)

/-- C10: the parser marks a locator as seen before validating the link
text, so when the first passing anchor resolving to a locator has an
invalid title, no candidate with that locator appears in the result at
all, even if a later anchor to the same locator has a valid title. -/
theorem c10_seen_before_validation_blocks_locator
    (links pre post : List Anchor) (a : Anchor) (u : String) (l : LetterData)
    (hsplit : links = pre ++ a :: post) (hp : passes a = true)
    (hu : resolveUrl a.href = u)
    (hfirst : ∀ b ∈ pre, ¬(passes b = true ∧ resolveUrl b.href = u))
    (hbad : validTitle a.text = false)
    (hl : l ∈ parse_letter_list (.doc links)) : l.url ≠ u := by
  subst hsplit
  have hfold : parse_letter_list (.doc (pre ++ a :: post)) =
      (post.foldl parseStep
        (parseStep (pre.foldl parseStep ([], [])) a)).1 := by
    simp only [parse_letter_list]
    rw [List.foldl_append]
    rfl
  rw [hfold] at hl
  have hpre_letters : ∀ l2 ∈ (pre.foldl parseStep ([], [])).1,
      l2.url ≠ u := by
    intro l2 hl2
    rcases foldl_letters_sub pre ([], []) l2 hl2 with
      h | ⟨b, hb, hpb, -, -, hlb⟩
    · simp at h
    · subst hlb
      rw [mkLetter_url]
      intro heq
      exact hfirst b hb ⟨hpb, heq⟩
  have hseen : u ∈ (parseStep (pre.foldl parseStep ([], [])) a).2 :=
    (parseStep_seen_mem _ a u).mpr (Or.inr ⟨hp, hu⟩)
  have hstepl : ∀ l2 ∈ (parseStep (pre.foldl parseStep ([], [])) a).1,
      l2.url ≠ u := by
    intro l2 hl2
    rcases (parseStep_letters_mem _ a l2).mp hl2 with h | ⟨-, -, -, hv, -⟩
    · exact hpre_letters l2 h
    · rw [hv] at hbad
      simp at hbad
  exact foldl_no_new_of_seen post _ u hseen hstepl l hl

/-- C10 witness: the theorem applied where the first anchor to the shared
locator has a too-short title; the only surviving candidate has a
different locator. -/
theorem c10_witness :
    (mkLetter aOther).url ≠
      "https://www.frbsf.org/economic-letter/2024/03/gamma-letter" :=
  c10_seen_before_validation_blocks_locator [aShort, aNewDup, aOther] []
    [aNewDup, aOther] aShort
    "https://www.frbsf.org/economic-letter/2024/03/gamma-letter"
    (mkLetter aOther) rfl rfl rfl (by simp) rfl (by decide)

end App
